import Mathlib

/-!
Shallow embedding of the `lastmonitor` dashboard's data-retrieval and
view-derivation logic (src/dashboard/src/api.ts and src/dashboard/src/App.tsx),
together with theorems settling the specification claims about it.

Strings model JavaScript strings; the empty string is the only falsy string,
so `a || b` on strings is embedded as `jsOrStr`.  Optional chaining over a
possibly-undefined collection is embedded with `Option`.
-/

namespace LastMonitor

/-- JavaScript `a || b` on strings: `""` is the only falsy string. -/
def jsOrStr (a b : String) : String := if a = "" then b else a

/-- JavaScript `a || b` where each side is either `undefined` (`none`) or a
string; `""` and `undefined` are both falsy. -/
def jsOrOpt (a b : Option String) : Option String :=
  match a with
  | none => b
  | some s => if s = "" then b else some s

/-- JavaScript `hay.includes(needle)`: substring containment. -/
def strContainsB (hay needle : String) : Bool :=
  decide (needle.data <:+: hay.data)

/-- ECMAScript `Array.prototype.slice(start, end)` with both indices given:
negative indices count from the end, indices are clamped to `[0, length]`,
and the elements with positions in `[from, to)` are returned. -/
def jsSlice {α : Type} (l : List α) (s e : Int) : List α :=
  let len : Int := l.length
  let f : Int := if s < 0 then max (len + s) 0 else min s len
  let t : Int := if e < 0 then max (len + e) 0 else min e len
  (l.take t.toNat).drop f.toNat

/-- `Array.prototype.slice(start)` with the end argument omitted: the end
defaults to the array length. -/
def jsSliceFrom {α : Type} (l : List α) (s : Int) : List α :=
  jsSlice l s (l.length : Int)

theorem jsSlice_zero_take {α : Type} (l : List α) (n : Nat) :
    jsSlice l 0 (n : Int) = l.take n := by
  simp only [jsSlice]
  have h0 : ¬ ((0 : Int) < 0) := by omega
  by_cases h : (n : Int) < 0
  · omega
  · simp only [if_neg h0, if_neg h]
    rcases le_total (n : Int) (l.length : Int) with hle | hle
    · have : min (n : Int) (l.length : Int) = (n : Int) := min_eq_left hle
      simp [this]
    · have : min (n : Int) (l.length : Int) = (l.length : Int) := min_eq_right hle
      have hn : l.length ≤ n := by exact_mod_cast hle
      simp [this, List.take_of_length_le hn, List.take_of_length_le (le_refl l.length)]

theorem jsSliceFrom_neg_drop {α : Type} (l : List α) (k : Nat) (hk : 0 < k) :
    jsSliceFrom l (-(k : Int)) = l.drop (l.length - k) := by
  simp only [jsSliceFrom, jsSlice]
  have hneg : (-(k : Int) < 0) := by omega
  have hlen : ¬ ((l.length : Int) < 0) := by omega
  simp only [if_pos hneg, if_neg hlen]
  have h1 : min (l.length : Int) (l.length : Int) = (l.length : Int) := min_self _
  have h2 : (max ((l.length : Int) + -(k : Int)) 0).toNat = l.length - k := by omega
  simp [h1, h2]

/-! ## Data model (src/dashboard/src/api.ts) -/

/-- A tweet record as declared by the API client.  Timestamp fields are
strings; an absent timestamp arrives as the empty string (falsy). -/
structure Tweet where
  tweet_id : String
  query : String
  user_handle : String
  user_name : String
  text : String
  link : String
  tweet_created_at : String
  fetched_at : String
deriving DecidableEq, Repr

/-- A news record as declared by the API client. -/
structure News where
  link : String
  source : String
  news_created_at : String
  fetched_at : String
deriving DecidableEq, Repr

/-- A daily-stat row: `{ day: string; tweets: number }`. -/
structure DailyStat where
  day : String
  tweets : Int
deriving DecidableEq, Repr

/-- A top-queries row: `{ query: string; total: number }`. -/
structure QueryStat where
  query : String
  total : Int
deriving DecidableEq, Repr

/-! ## API client (src/dashboard/src/api.ts, `request`) -/

/-- A scalar search-parameter value (`string | number`). -/
inductive ScalarVal where
  | str (s : String)
  | num (n : Int)
deriving DecidableEq, Repr

/-- JavaScript `String(v)` on a scalar value. -/
def jsString : ScalarVal → String
  | .str s => s
  | .num n => toString n

/-- `URLSearchParams.set(k, v)`: replace the first entry with key `k` (and
delete any later ones), or append `(k, v)` when `k` is not present. -/
def setParam : List (String × String) → String → String → List (String × String)
  | [], k, v => [(k, v)]
  | p :: ps, k, v =>
      if p.1 = k then (k, v) :: ps.filter (fun q => q.1 ≠ k)
      else p :: setParam ps k v

/-- The query-string construction of `request`: iterate over the entries of
the `search` map in order and `set` each key whose value is defined
(`v !== undefined && v !== null`), stringified. -/
def buildQuery (search : List (String × Option ScalarVal)) : List (String × String) :=
  search.foldl
    (fun ps kv =>
      match kv.2 with
      | none => ps
      | some v => setParam ps kv.1 (jsString v))
    []

/-- The constructed URL: base, path, and the query-string entries. -/
structure UrlM where
  base : String
  path : String
  query : List (String × String)
deriving DecidableEq, Repr

/-- `new URL(path, base)` followed by the search-parameter loop. -/
def urlOf (base path : String) (search : Option (List (String × Option ScalarVal))) : UrlM :=
  ⟨base, path, buildQuery (search.getD [])⟩

/-- An HTTP response, with `json` the decoded body (of arbitrary shape `β`). -/
structure HttpResp (β : Type) where
  status : Nat
  bodyText : String
  json : β
deriving DecidableEq, Repr

/-- `Response.ok`: status in the inclusive range 200–299. -/
def respOk {β : Type} (r : HttpResp β) : Bool :=
  decide (200 ≤ r.status) && decide (r.status ≤ 299)

/-- The errors `request` can throw: the missing-base-URL configuration error,
or the HTTP error built from the status and the raw body text. -/
inductive ApiError where
  | config (msg : String)
  | http (msg : String)
deriving DecidableEq, Repr

/-- The configuration-error message thrown when the base URL is empty. -/
def configErrMsg : String := "API base URL is not set (VITE_API_BASE_URL)."

/-- The HTTP-error message template: `API ${status}: ${text}`. -/
def httpErrMsg (status : Nat) (text : String) : String :=
  "API " ++ toString status ++ ": " ++ text

/-- The API client's `request` function.  The network is modelled as a
function from the constructed URL to the response; it is consulted only after
the base-URL precondition check. -/
def request {β : Type} (baseUrl path : String)
    (search : Option (List (String × Option ScalarVal)))
    (net : UrlM → HttpResp β) : Except ApiError β :=
  if baseUrl = "" then .error (.config configErrMsg)
  else
    let url := urlOf baseUrl path search
    let res := net url
    if respOk res then .ok res.json
    else .error (.http (httpErrMsg res.status res.bodyText))

/-! ## View-model derivations (src/dashboard/src/App.tsx) -/

/-- The summary-stats record derived in `App` (`stats` memo). -/
structure Stats where
  totalTweets : Nat
  uniqueQueries : Nat
  lastFetched : Option String
  lastNews : Option String
deriving DecidableEq, Repr

/-- JavaScript `Set` accumulation over a list: append each element not seen
before, preserving insertion order (`Array.from(set)` yields this order). -/
def setAddAll (l : List String) : List String :=
  l.foldl (fun acc q => if q ∈ acc then acc else acc ++ [q]) []

/-- The `queries` memo: `undefined` data gives `[]`; otherwise each tweet's
`query` is added to a `Set` in order and the set is listed. -/
def queriesOf (td : Option (List Tweet)) : List String :=
  match td with
  | none => []
  | some data => setAddAll (data.map (·.query))

/-- The first element of a possibly-undefined list, via optional chaining
(`data?.[0]`). -/
def firstOf {α : Type} (d : Option (List α)) : Option α :=
  (d.getD []).head?

/-- The `stats` memo:
`totalTweets = data?.length || 0`,
`uniqueQueries = new Set((data || []).map(t => t.query)).size`,
`lastFetched = data?.[0]?.fetched_at || data?.[0]?.tweet_created_at`,
`lastNews = news?.[0]?.fetched_at || news?.[0]?.news_created_at`. -/
def statsOf (td : Option (List Tweet)) (nd : Option (List News)) : Stats :=
  { totalTweets := (td.getD []).length
    uniqueQueries := (setAddAll ((td.getD []).map (·.query))).length
    lastFetched := jsOrOpt ((firstOf td).map (·.fetched_at))
      ((firstOf td).map (·.tweet_created_at))
    lastNews := jsOrOpt ((firstOf nd).map (·.fetched_at))
      ((firstOf nd).map (·.news_created_at)) }

/-- A point of the `timeline` memo: `{ ts, query }`. -/
structure TimelinePoint where
  ts : String
  query : String
deriving DecidableEq, Repr

/-- The `timeline` memo: `undefined` data gives `[]`; otherwise map each tweet
to `{ ts: t.tweet_created_at || t.fetched_at, query: t.query }` and
`slice(0, 50)`. -/
def timelineOf (td : Option (List Tweet)) : List TimelinePoint :=
  match td with
  | none => []
  | some data =>
      jsSlice (data.map (fun t => ⟨jsOrStr t.tweet_created_at t.fetched_at, t.query⟩)) 0 50

/-- The `DailyChart` derivation: map each row to `{ day, tweets }`, reverse,
then `slice(-14)`. -/
def dailyChartMapped (data : List DailyStat) : List DailyStat :=
  jsSliceFrom ((data.map (fun d => ⟨d.day, d.tweets⟩)).reverse) (-14)

/-- The `QueryPie` derivation: `data.slice(0, 8)`. -/
def queryPieTrimmed (data : List QueryStat) : List QueryStat :=
  jsSlice data 0 8

/-! ## Live feed (src/dashboard/src/App.tsx, `LiveFeed`) -/

/-- The tag of a merged live-feed item. -/
inductive FeedKind where
  | tweet
  | news
deriving DecidableEq, Repr

/-- A merged live-feed item: `{ kind, text, link, ts, meta }`. -/
structure FeedItem where
  kind : FeedKind
  text : String
  link : String
  ts : String
  meta : String
deriving DecidableEq, Repr

/-- The live-feed projection of a tweet:
`ts = tweet_created_at || fetched_at`, `meta` = user name, bullet, query. -/
def tweetItem (t : Tweet) : FeedItem :=
  { kind := .tweet
    text := t.text
    link := t.link
    ts := jsOrStr t.tweet_created_at t.fetched_at
    meta := t.user_name ++ " • " ++ t.query }

/-- The live-feed projection of a news item:
`ts = news_created_at || fetched_at`, `meta = source || "Haber"`. -/
def newsItem (n : News) : FeedItem :=
  { kind := .news
    text := n.link
    link := n.link
    ts := jsOrStr n.news_created_at n.fetched_at
    meta := jsOrStr n.source "Haber" }

/-- The merged item list: all tweets pushed first, then all news. -/
def mergeItems (tw : List Tweet) (nw : List News) : List FeedItem :=
  tw.map tweetItem ++ nw.map newsItem

/-- The live-feed category-filter kind. -/
inductive FilterType where
  | site
  | place
  | person
  | all
deriving DecidableEq, Repr

/-- The live-feed category filter: a kind and an optional value. -/
structure CatFilter where
  type : FilterType
  value : Option String
deriving DecidableEq, Repr

/-- `normalize`: `(v || "").toLowerCase()`. -/
def normalizeStr (v : Option String) : String := (v.getD "").toLower

/-- The live-feed filter predicate, clause for clause as in the source:
`all` keeps everything; an empty normalized value keeps everything; `site`
tests meta then text; `place`/`person` test text then meta. -/
def codeKeep (f : CatFilter) (it : FeedItem) : Bool :=
  if f.type = FilterType.all then true
  else
    let val := normalizeStr f.value
    if val = "" then true
    else if f.type = FilterType.site then
      strContainsB (normalizeStr (some it.meta)) val
        || strContainsB (normalizeStr (some it.text)) val
    else if f.type = FilterType.place ∨ f.type = FilterType.person then
      strContainsB (normalizeStr (some it.text)) val
        || strContainsB (normalizeStr (some it.meta)) val
    else true

/-- The sort key: `new Date(ts).getTime() || 0`, with `parse` the abstract
timestamp parser; an unparsable timestamp (`none`) yields 0. -/
def tsKey (parse : String → Option Int) (it : FeedItem) : Int :=
  (parse it.ts).getD 0

/-- The descending comparator derived from `(a, b) => keyB - keyA`: `a` may
precede `b` exactly when `key b ≤ key a`. -/
def descLe (parse : String → Option Int) (a b : FeedItem) : Bool :=
  decide (tsKey parse b ≤ tsKey parse a)

/-- The `entries` memo of `LiveFeed`: merge, filter, stable sort descending
by parsed timestamp, `slice(0, 10)`. -/
def liveEntries (parse : String → Option Int) (f : CatFilter)
    (tw : List Tweet) (nw : List News) : List FeedItem :=
  jsSlice (((mergeItems tw nw).filter (codeKeep f)).mergeSort (descLe parse)) 0 10

/-! ## Spec-side definitions

These follow the specification's words, to be compared with the definitions
translated from the source. -/

/-- Spec-side: the last `n` entries of a list. -/
def takeLast {α : Type} (n : Nat) (l : List α) : List α :=
  l.drop (l.length - n)

/-- Spec-side: each element exactly once, in first-seen order. -/
def firstSeen : List String → List String
  | [] => []
  | q :: rest => q :: firstSeen (rest.filter (fun x => x ≠ q))
termination_by l => l.length
decreasing_by
  simp only [List.length_cons]
  exact Nat.lt_succ_of_le (List.length_filter_le _ _)

/-- Spec-side live-feed filter: keep every item when the kind is `all` or the
filter value is empty; otherwise keep the items whose meta-label or text
contains the filter value case-insensitively. -/
def specKeep (f : CatFilter) (it : FeedItem) : Bool :=
  if f.type = FilterType.all ∨ normalizeStr f.value = "" then true
  else
    strContainsB it.meta.toLower (normalizeStr f.value)
      || strContainsB it.text.toLower (normalizeStr f.value)

/-- Spec-side query-string content: the entries of the parameter map whose
value is present, stringified, in order. -/
def presentEntries (search : List (String × Option ScalarVal)) : List (String × String) :=
  search.filterMap (fun kv => kv.2.map (fun v => (kv.1, jsString v)))

/-! ## Helper lemmas -/

theorem mem_firstSeen (l : List String) (x : String) : x ∈ firstSeen l ↔ x ∈ l := by
  induction l using firstSeen.induct with
  | case1 => simp [firstSeen]
  | case2 q rest ih =>
      simp only [firstSeen, List.mem_cons, ih, List.mem_filter]
      by_cases hx : x = q
      · subst hx; simp
      · simp [hx]

theorem nodup_firstSeen (l : List String) : (firstSeen l).Nodup := by
  induction l using firstSeen.induct with
  | case1 => simp [firstSeen]
  | case2 q rest ih =>
      simp only [firstSeen, List.nodup_cons]
      refine ⟨fun hq => ?_, ih⟩
      have := (mem_firstSeen _ _).mp hq
      simp [List.mem_filter] at this

theorem foldl_setAdd (l : List String) :
    ∀ acc, l.foldl (fun acc q => if q ∈ acc then acc else acc ++ [q]) acc
      = acc ++ firstSeen (l.filter (fun q => q ∉ acc)) := by
  induction l with
  | nil => intro acc; simp [firstSeen]
  | cons q rest ih =>
      intro acc
      by_cases hq : q ∈ acc
      · have hfilter : (q :: rest).filter (fun x => x ∉ acc)
            = rest.filter (fun x => x ∉ acc) := by
          simp [List.filter_cons, hq]
        rw [List.foldl_cons, if_pos hq, ih acc, hfilter]
      · have hfilter : (q :: rest).filter (fun x => x ∉ acc)
            = q :: (rest.filter (fun x => x ∉ acc)) := by
          simp [List.filter_cons, hq]
        have hcomb : rest.filter (fun x => x ∉ acc ++ [q])
            = (rest.filter (fun x => x ∉ acc)).filter (fun x => x ≠ q) := by
          rw [List.filter_filter]
          refine List.filter_congr fun x _ => ?_
          by_cases hxq : x = q
          · subst hxq; simp
          · by_cases hxa : x ∈ acc <;> simp [hxq, hxa]
        rw [List.foldl_cons, if_neg hq, ih (acc ++ [q]), hfilter]
        show acc ++ [q] ++ _ = acc ++ (firstSeen (q :: _))
        rw [firstSeen, hcomb, List.append_assoc]
        rfl

theorem setAddAll_eq_firstSeen (l : List String) : setAddAll l = firstSeen l := by
  have h := foldl_setAdd l []
  simpa [setAddAll, List.filter_true] using h

theorem setParam_of_forall_ne (k v : String) :
    ∀ ps : List (String × String), (∀ p ∈ ps, p.1 ≠ k) →
      setParam ps k v = ps ++ [(k, v)] := by
  intro ps
  induction ps with
  | nil => intro _; rfl
  | cons p rest ih =>
      intro h
      have hp : p.1 ≠ k := h p (by simp)
      simp only [setParam, if_neg hp, List.cons_append, List.cons.injEq, true_and]
      exact ih fun q hq => h q (by simp [hq])

theorem buildQuery_aux (search : List (String × Option ScalarVal)) :
    ∀ ps : List (String × String),
      (ps.map Prod.fst ++ search.map Prod.fst).Nodup →
      search.foldl
        (fun ps kv =>
          match kv.2 with
          | none => ps
          | some v => setParam ps kv.1 (jsString v))
        ps
      = ps ++ presentEntries search := by
  induction search with
  | nil => intro ps _; simp [presentEntries]
  | cons kv rest ih =>
      intro ps hnd
      obtain ⟨k, ov⟩ := kv
      cases ov with
      | none =>
          have hnd' : (ps.map Prod.fst ++ rest.map Prod.fst).Nodup := by
            refine List.Nodup.sublist ?_ hnd
            refine List.Sublist.append (List.Sublist.refl _) ?_
            simp
          simpa [presentEntries] using ih ps hnd'
      | some v =>
          have hk : ∀ p ∈ ps, p.1 ≠ k := by
            intro p hp
            intro hpk
            have h1 : k ∈ ps.map Prod.fst := by
              exact hpk ▸ List.mem_map_of_mem Prod.fst hp
            have h2 : k ∈ ((k, some v) :: rest).map Prod.fst := by simp
            exact (List.disjoint_of_nodup_append hnd) h1 h2
          have hstep : setParam ps k (jsString v) = ps ++ [(k, jsString v)] :=
            setParam_of_forall_ne k (jsString v) ps hk
          have hnd' : ((ps ++ [(k, jsString v)]).map Prod.fst ++ rest.map Prod.fst).Nodup := by
            have : (ps ++ [(k, jsString v)]).map Prod.fst ++ rest.map Prod.fst
                = ps.map Prod.fst ++ ((k, some v) :: rest).map Prod.fst := by
              simp
            rw [this]
            exact hnd
          calc ((k, some v) :: rest).foldl _ ps
              = rest.foldl _ (setParam ps k (jsString v)) := by rfl
            _ = ps ++ [(k, jsString v)] ++ presentEntries rest := by
                rw [hstep]; exact ih _ hnd'
            _ = ps ++ presentEntries ((k, some v) :: rest) := by
                simp [presentEntries]

theorem buildQuery_eq_presentEntries (search : List (String × Option ScalarVal))
    (h : (search.map Prod.fst).Nodup) :
    buildQuery search = presentEntries search := by
  have := buildQuery_aux search [] (by simpa using h)
  simpa [buildQuery] using this

theorem keys_nodup_inj {β : Type} (l : List (String × β))
    (h : (l.map Prod.fst).Nodup) {k : String} {a b : β}
    (ha : (k, a) ∈ l) (hb : (k, b) ∈ l) : a = b := by
  induction l with
  | nil => simp at ha
  | cons p rest ih =>
      simp only [List.map_cons, List.nodup_cons] at h
      rcases List.mem_cons.mp ha with ha1 | ha1 <;>
        rcases List.mem_cons.mp hb with hb1 | hb1
      · exact congrArg Prod.snd (ha1.trans hb1.symm)
      · exfalso
        apply h.1
        have : p.1 = k := by rw [← ha1]
        exact this ▸ List.mem_map_of_mem Prod.fst hb1
      · exfalso
        apply h.1
        have : p.1 = k := by rw [← hb1]
        exact this ▸ List.mem_map_of_mem Prod.fst ha1
      · exact ih h.2 ha1 hb1

theorem codeKeep_eq_specKeep (f : CatFilter) (it : FeedItem) :
    codeKeep f it = specKeep f it := by
  obtain ⟨ty, val⟩ := f
  cases ty <;> by_cases hv : normalizeStr val = "" <;>
    simp [codeKeep, specKeep, hv, normalizeStr, Bool.or_comm]

/-! ## Concrete inputs used by counterexamples and examples -/

/-- A tweet whose creation and fetch timestamps are both present and differ. -/
def cexTweet : Tweet :=
  { tweet_id := "1", query := "q", user_handle := "h", user_name := "u"
    text := "t", link := "l", tweet_created_at := "c", fetched_at := "f" }

/-- A tweet carrying only a query tag. -/
def mkTweet (q : String) : Tweet :=
  { tweet_id := "", query := q, user_handle := "", user_name := ""
    text := "", link := "", tweet_created_at := "", fetched_at := "" }

/-! ## Claim theorems -/

/-- C1 counterexample: the claim says the most-recent-tweet timestamp uses the
tweet creation timestamp whenever it is present; on a tweet whose creation
timestamp `"c"` is present, the derivation nevertheless returns the fetch
timestamp `"f"`. -/
theorem stats_tweet_primary_counterexample :
    cexTweet.tweet_created_at ≠ "" ∧
    (statsOf (some [cexTweet]) none).lastFetched ≠ some cexTweet.tweet_created_at ∧
    (statsOf (some [cexTweet]) none).lastFetched = some cexTweet.fetched_at := by
  decide

/-- C1 (amended): for every nonempty fetched tweet and news collection, the
most-recent-tweet timestamp uses the fetch timestamp and falls back to the
tweet creation timestamp when the fetch timestamp is missing, and the
most-recent-news timestamp uses the fetch timestamp and falls back to the
news creation timestamp when the fetch timestamp is missing; in each case the
fetch timestamp is used whenever it is present. -/
theorem stats_last_timestamps_fetch_primary (t : Tweet) (tws : List Tweet)
    (n : News) (nws : List News) :
    ((statsOf (some (t :: tws)) (some (n :: nws))).lastFetched
        = if t.fetched_at = "" then some t.tweet_created_at else some t.fetched_at)
    ∧ ((statsOf (some (t :: tws)) (some (n :: nws))).lastNews
        = if n.fetched_at = "" then some n.news_created_at else some n.fetched_at) := by
  constructor <;> simp [statsOf, firstOf, jsOrOpt]

/-- C2: for every daily-stat collection, the daily chart series equals the
collection reversed and then restricted to its last 14 entries, and on the
concrete input d1..d20 (d1 first) the chart order is d14, d13, ..., d1. -/
theorem dailyChart_reverse_then_last14 :
    (∀ data : List DailyStat, dailyChartMapped data = takeLast 14 data.reverse)
    ∧ dailyChartMapped
        ((List.range 20).map (fun i => ⟨"d" ++ toString (i + 1), (i : Int) + 1⟩))
      = (List.range 14).map (fun i => ⟨"d" ++ toString (14 - i), (14 : Int) - i⟩) := by
  constructor
  · intro data
    have heta : data.map (fun d => (⟨d.day, d.tweets⟩ : DailyStat)) = data := by
      have : (fun d : DailyStat => (⟨d.day, d.tweets⟩ : DailyStat)) = id := rfl
      rw [this, List.map_id]
    rw [dailyChartMapped, heta, show (-14 : Int) = -((14 : Nat) : Int) from rfl,
      jsSliceFrom_neg_drop _ 14 (by omega), takeLast]
  · decide

/-- C7: the distinct-query derivation returns each query tag exactly once, in
first-seen order of the collection; tweets with queries a, b, a, c yield
a, b, c. -/
theorem distinct_queries_first_seen :
    (∀ td : List Tweet,
      queriesOf (some td) = firstSeen (td.map (·.query))
      ∧ (queriesOf (some td)).Nodup
      ∧ (∀ q, q ∈ queriesOf (some td) ↔ q ∈ td.map (·.query)))
    ∧ queriesOf (some [mkTweet "a", mkTweet "b", mkTweet "a", mkTweet "c"])
      = ["a", "b", "c"] := by
  constructor
  · intro td
    have heq : queriesOf (some td) = firstSeen (td.map (·.query)) := by
      rw [queriesOf, setAddAll_eq_firstSeen]
    exact ⟨heq, heq ▸ nodup_firstSeen _, fun q => heq ▸ mem_firstSeen _ q⟩
  · decide

/-- C8: the timeline derivation (project each tweet to its
creation-or-fetch timestamp and query, then slice to 50) equals taking the
first 50 tweets and then projecting: project-then-take commutes with
take-then-project. -/
theorem timeline_take_project_commute (data : List Tweet) :
    timelineOf (some data)
      = (data.take 50).map
          (fun t => ⟨jsOrStr t.tweet_created_at t.fetched_at, t.query⟩) := by
  rw [timelineOf, show (50 : Int) = ((50 : Nat) : Int) from rfl,
    jsSlice_zero_take, List.map_take]

/-- C9: the pie-chart derivation uses exactly the first 8 entries of the
top-queries response, unmodified and in order (fewer when the response is
shorter), and on a concrete 12-entry response exactly entries 1..8. -/
theorem queryPie_first_eight :
    (∀ data : List QueryStat,
      queryPieTrimmed data = data.take 8
      ∧ (queryPieTrimmed data).length = min 8 data.length)
    ∧ queryPieTrimmed ((List.range 12).map (fun i => ⟨"q" ++ toString i, (i : Int)⟩))
      = (List.range 8).map (fun i => ⟨"q" ++ toString i, (i : Int)⟩) := by
  constructor
  · intro data
    have h : queryPieTrimmed data = data.take 8 := by
      rw [queryPieTrimmed, show (8 : Int) = ((8 : Nat) : Int) from rfl, jsSlice_zero_take]
    exact ⟨h, by rw [h, List.length_take]⟩
  · decide

/-- C10: for absent or empty tweet and news data, the summary-stats
derivation returns total-tweet count 0, distinct-query count 0, and absent
most-recent timestamps. -/
theorem stats_total_on_empty (td : Option (List Tweet)) (nd : Option (List News))
    (ht : td = none ∨ td = some []) (hn : nd = none ∨ nd = some []) :
    statsOf td nd = ⟨0, 0, none, none⟩ := by
  rcases ht with h | h <;> rcases hn with h' | h' <;> subst h <;> subst h' <;> decide

/-- Witness for C10 at the concrete input of absent data on both sides. -/
theorem stats_total_on_empty_witness :
    statsOf none none = ⟨0, 0, none, none⟩ :=
  stats_total_on_empty none none (Or.inl rfl) (Or.inl rfl)

theorem strContainsB_httpErrMsg_status (s : Nat) (t : String) :
    strContainsB (httpErrMsg s t) (toString s) = true := by
  simp only [httpErrMsg, strContainsB, decide_eq_true_eq, String.data_append]
  have := List.infix_append ("API ".data) ((toString s).data) (": ".data ++ t.data)
  simpa [List.append_assoc] using this

theorem strContainsB_httpErrMsg_body (s : Nat) (t : String) :
    strContainsB (httpErrMsg s t) t = true := by
  simp only [httpErrMsg, strContainsB, decide_eq_true_eq, String.data_append]
  exact (List.suffix_append _ _).isInfix

/-- C3: for every merged tweet+news collection and category filter, the
live-feed derivation equals filtering by the spec predicate (meta-label or
text contains the filter value case-insensitively; everything kept for kind
`all` or an empty value), stably sorting descending by parsed timestamp with
unparsable timestamps as epoch zero, and taking the first 10; the result has
at most 10 entries, is pairwise descending by timestamp key, and contains
only items passing the filter. -/
theorem liveFeed_filter_sort_cap (parse : String → Option Int) (f : CatFilter)
    (tw : List Tweet) (nw : List News) :
    liveEntries parse f tw nw
        = (((mergeItems tw nw).filter (specKeep f)).mergeSort (descLe parse)).take 10
    ∧ (liveEntries parse f tw nw).length ≤ 10
    ∧ List.Pairwise (fun a b => tsKey parse b ≤ tsKey parse a)
        (liveEntries parse f tw nw)
    ∧ (∀ it, it ∈ liveEntries parse f tw nw → specKeep f it = true) := by
  have hfil : (mergeItems tw nw).filter (codeKeep f)
      = (mergeItems tw nw).filter (specKeep f) :=
    List.filter_congr fun x _ => codeKeep_eq_specKeep f x
  have heq : liveEntries parse f tw nw
      = (((mergeItems tw nw).filter (specKeep f)).mergeSort (descLe parse)).take 10 := by
    rw [liveEntries, show (10 : Int) = ((10 : Nat) : Int) from rfl,
      jsSlice_zero_take, hfil]
  have htrans : ∀ a b c, descLe parse a b = true → descLe parse b c = true →
      descLe parse a c = true := by
    intro a b c hab hbc
    simp only [descLe, decide_eq_true_eq] at *
    exact le_trans hbc hab
  have htotal : ∀ a b, (descLe parse a b || descLe parse b a) = true := by
    intro a b
    simp only [descLe, Bool.or_eq_true, decide_eq_true_eq]
    exact le_total _ _
  have hsorted : List.Pairwise (fun a b => descLe parse a b = true)
      (((mergeItems tw nw).filter (specKeep f)).mergeSort (descLe parse)) :=
    List.sorted_mergeSort htrans htotal _
  have hpw : List.Pairwise (fun a b => tsKey parse b ≤ tsKey parse a)
      (liveEntries parse f tw nw) := by
    rw [heq]
    refine List.Pairwise.sublist (List.take_sublist _ _) ?_
    exact hsorted.imp (fun h => by simpa [descLe] using h)
  refine ⟨heq, ?_, hpw, ?_⟩
  · rw [heq, List.length_take]
    exact Nat.min_le_left _ _
  · intro it hit
    rw [heq] at hit
    have h1 := List.Sublist.mem hit (List.take_sublist _ _)
    have h2 := (List.mergeSort_perm _ _).mem_iff.mp h1
    exact (List.mem_filter.mp h2).2

/-- C4: for every parameter map with distinct keys, no key whose value is
absent appears in the constructed query string, and every key with a present
scalar value appears with that value stringified. -/
theorem request_query_omits_absent_params (search : List (String × Option ScalarVal))
    (h : (search.map Prod.fst).Nodup) :
    (∀ k v, (k, (none : Option ScalarVal)) ∈ search → (k, v) ∉ buildQuery search)
    ∧ (∀ k sv, (k, some sv) ∈ search → (k, jsString sv) ∈ buildQuery search) := by
  have hbq := buildQuery_eq_presentEntries search h
  constructor
  · intro k v hk hmem
    rw [hbq] at hmem
    obtain ⟨⟨k', ov⟩, hmem', hf⟩ := List.mem_filterMap.mp hmem
    cases ov with
    | none => simp at hf
    | some v' =>
        simp only [Option.map_some', Option.some.injEq, Prod.mk.injEq] at hf
        obtain ⟨hk', _⟩ := hf
        subst hk'
        have := keys_nodup_inj search h hk hmem'
        simp at this
  · intro k sv hk
    rw [hbq]
    exact List.mem_filterMap.mpr ⟨(k, some sv), hk, rfl⟩

/-- Witness for C4 at a two-entry parameter map: the key with an absent value
is omitted and the key with a present value appears stringified. -/
theorem request_query_omits_absent_params_witness :
    ("b", "") ∉ buildQuery [("a", some (ScalarVal.str "x")), ("b", none)]
    ∧ ("a", "x") ∈ buildQuery [("a", some (ScalarVal.str "x")), ("b", none)] := by
  have h := request_query_omits_absent_params
    [("a", some (ScalarVal.str "x")), ("b", none)] (by decide)
  exact ⟨h.1 "b" "" (by decide), h.2 "a" (ScalarVal.str "x") (by decide)⟩

/-- C5: with an empty configured base URL, the request fails with the
configuration error, and the outcome does not depend on the network at all
(no network call is consulted). -/
theorem request_empty_base_config_error {β : Type} (path : String)
    (search : Option (List (String × Option ScalarVal)))
    (net net' : UrlM → HttpResp β) :
    request "" path search net = Except.error (ApiError.config configErrMsg)
    ∧ request "" path search net = request "" path search net' :=
  ⟨rfl, rfl⟩

/-- C6: with a nonempty base URL, a response with status outside 200–299
fails with an error whose message is the `API ${status}: ${body}` template
and contains the stringified status and the raw body text as substrings,
while a status inside 200–299 returns the decoded JSON body unchanged. -/
theorem request_http_status_handling {β : Type} (baseUrl path : String)
    (search : Option (List (String × Option ScalarVal)))
    (net : UrlM → HttpResp β) (hbase : baseUrl ≠ "") :
    (¬ (200 ≤ (net (urlOf baseUrl path search)).status
          ∧ (net (urlOf baseUrl path search)).status ≤ 299) →
      request baseUrl path search net
        = Except.error (ApiError.http (httpErrMsg (net (urlOf baseUrl path search)).status
            (net (urlOf baseUrl path search)).bodyText))
      ∧ strContainsB
          (httpErrMsg (net (urlOf baseUrl path search)).status
            (net (urlOf baseUrl path search)).bodyText)
          (toString (net (urlOf baseUrl path search)).status) = true
      ∧ strContainsB
          (httpErrMsg (net (urlOf baseUrl path search)).status
            (net (urlOf baseUrl path search)).bodyText)
          (net (urlOf baseUrl path search)).bodyText = true)
    ∧ ((200 ≤ (net (urlOf baseUrl path search)).status
          ∧ (net (urlOf baseUrl path search)).status ≤ 299) →
      request baseUrl path search net
        = Except.ok (net (urlOf baseUrl path search)).json) := by
  constructor
  · intro hbad
    have hok : respOk (net (urlOf baseUrl path search)) = false := by
      simp only [respOk, Bool.and_eq_false_iff, decide_eq_false_iff_not]
      by_cases h1 : 200 ≤ (net (urlOf baseUrl path search)).status
      · exact Or.inr fun h2 => hbad ⟨h1, h2⟩
      · exact Or.inl h1
    refine ⟨?_, ?_, ?_⟩
    · simp only [request, if_neg hbase, hok]
      rfl
    · exact strContainsB_httpErrMsg_status _ _
    · exact strContainsB_httpErrMsg_body _ _
  · intro hgood
    have hok : respOk (net (urlOf baseUrl path search)) = true := by
      simp only [respOk, Bool.and_eq_true, decide_eq_true_eq]
      exact hgood
    simp only [request, if_neg hbase, hok]
    rfl

/-- Witness for C6: a 404 response with body text becomes the templated HTTP
error and a 200 response returns its JSON body. -/
theorem request_http_status_handling_witness :
    request "http://a" "/tweets" none
        (fun _ => ({ status := 404, bodyText := "missing", json := (0 : Nat) } : HttpResp Nat))
      = Except.error (ApiError.http (httpErrMsg 404 "missing"))
    ∧ request "http://a" "/tweets" none
        (fun _ => ({ status := 200, bodyText := "", json := (7 : Nat) } : HttpResp Nat))
      = Except.ok 7 := by
  constructor
  · exact ((request_http_status_handling "http://a" "/tweets" none
      (fun _ => ⟨404, "missing", 0⟩) (by decide)).1 (by decide)).1
  · exact (request_http_status_handling "http://a" "/tweets" none
      (fun _ => ⟨200, "", 7⟩) (by decide)).2 (by decide)

end LastMonitor
